import Mathlib

/-!
Verification development for the HeFESTo parameter-to-XML generator
(`generate_xml.py`).  The Python source is shallowly embedded below:
pure functions become Lean functions, Python floats are modelled as
exact rationals (`ℚ`), Python code that can raise (attribute access on
an attribute that was never assigned) returns `Option`, and Python
dictionaries are modelled as association lists looked up with
`List.lookup` (keys are inserted at most once by construction).
-/

namespace HeFESTo

/-! ## Python string/number helpers -/

/-- Model of Python `str.split()` (no argument): split on runs of
whitespace, discarding empty tokens.  The accumulator holds the
current token reversed. -/
def splitWSAux : List Char → List Char → List String
  | [], acc => if acc.isEmpty then [] else [String.mk acc.reverse]
  | c :: cs, acc =>
    if c.isWhitespace then
      if acc.isEmpty then splitWSAux cs []
      else String.mk acc.reverse :: splitWSAux cs []
    else splitWSAux cs (c :: acc)

/-- Python `s.split()` on a string. -/
def pySplit (s : String) : List String :=
  splitWSAux s.toList []

/-- Python `s.strip()`: drop leading and trailing whitespace. -/
def pyStrip (s : String) : String :=
  String.mk (((s.toList.dropWhile Char.isWhitespace).reverse.dropWhile
      Char.isWhitespace).reverse)

/-- Python `range(a, b)`. -/
def pyRange (a b : Nat) : List Nat :=
  List.range' a (b - a)

/-- Python substring containment `pat in s`. -/
def containsSub (s pat : String) : Bool :=
  (List.range (s.length + 1)).any
    (fun i => (s.toList.drop i).take pat.length = pat.toList)

/-- Numeric value of a list of decimal digit characters. -/
def digitsVal (cs : List Char) : Nat :=
  cs.foldl (fun a c => a * 10 + (c.toNat - 48)) 0

/-- Exponent suffix of a Python float literal: the remaining input
must be empty (exponent `0`) or `e`/`E`, an optional sign, and one or
more digits with nothing after them. -/
def expSuffix (cs : List Char) : Option Int :=
  match cs with
  | [] => some 0
  | c :: t =>
    if c = 'e' ∨ c = 'E' then
      let p : Int × List Char :=
        match t with
        | '+' :: u => (1, u)
        | '-' :: u => (-1, u)
        | _ => (1, t)
      let eds := p.2.takeWhile Char.isDigit
      let rest := p.2.dropWhile Char.isDigit
      if eds.isEmpty ∨ rest.isEmpty = false then none
      else some (p.1 * (digitsVal eds : Int))
    else none

/-- Exact rational value of the decimal literal
`sgn * ip.fp * 10 ^ e` (integer part and fraction part given as digit
lists).  Built with `Rat.divInt` and integer arithmetic only. -/
def decValue (sgn : Int) (ip fp : List Char) (e : Int) : ℚ :=
  let m : Int := sgn * ((digitsVal ip : Int) * (10 : Int) ^ fp.length +
    (digitsVal fp : Int))
  let d : Int := (10 : Int) ^ fp.length
  if 0 ≤ e then Rat.divInt (m * (10 : Int) ^ e.toNat) d
  else Rat.divInt m (d * (10 : Int) ^ (-e).toNat)

/-- Model of Python `float(s)` on decimal literals (sign, digits,
optional fraction, optional exponent), returning the exact rational
value.  `none` models `ValueError`. -/
def pyFloat (s : String) : Option ℚ :=
  let cs := s.toList
  let sc : Int × List Char :=
    match cs with
    | '+' :: t => (1, t)
    | '-' :: t => (-1, t)
    | _ => (1, cs)
  let ip := sc.2.takeWhile Char.isDigit
  let r1 := sc.2.dropWhile Char.isDigit
  match r1 with
  | '.' :: t =>
    let fp := t.takeWhile Char.isDigit
    let r2 := t.dropWhile Char.isDigit
    if ip.isEmpty ∧ fp.isEmpty then none
    else (expSuffix r2).map (decValue sc.1 ip fp)
  | _ =>
    if ip.isEmpty then none
    else (expSuffix r1).map (decValue sc.1 ip [])

/-- Python `str.capitalize()`: first character uppercased, rest
lowercased. -/
def pyCapitalize (s : String) : String :=
  match s.toList with
  | [] => ""
  | c :: t => String.mk (c.toUpper :: t.map Char.toLower)

/-! ## Fixed-point decimal formatting (Python `f"{x:.Nf}"`) -/

/-- Round the fraction `n / d` (with `d > 0`) to the nearest integer,
ties to even, as Python float formatting does.  The floor is
`n.ediv d` with remainder `n.emod d`; the fractional part compares to
one half by comparing `2 * remainder` with `d`. -/
def roundHalfEvenInt (n d : Int) : Int :=
  let f := Int.ediv n d
  let r := Int.emod n d
  if 2 * r < d then f
  else if d < 2 * r then f + 1
  else if f % 2 = 0 then f else f + 1

/-- Left-pad a digit string with zeros to width `w`. -/
def padZeros (s : String) (w : Nat) : String :=
  String.mk (List.replicate (w - s.length) '0') ++ s

/-- Model of Python `f"{q:.precf}"` on the exact rational value:
round `q * 10 ^ prec` to an integer (ties to even) and print it with
a decimal point `prec` digits from the right. -/
def formatFixed (q : ℚ) (prec : Nat) : String :=
  let r := roundHalfEvenInt (q.num * (10 : Int) ^ prec) q.den
  let sgn := if r < 0 then "-" else ""
  let a := r.natAbs
  if prec = 0 then sgn ++ toString a
  else sgn ++ toString (a / 10 ^ prec) ++ "." ++
    padZeros (toString (a % 10 ^ prec)) prec

/-! ## `HeFESToParameter` (Parameter Record Parser) -/

/-- One mineral record.  `formula_raw`/`name` are `none` when the
Python constructor never assigned the attribute (line 0 missing or
having fewer than two tokens); accessing them then raises in Python. -/
structure HeFESToParameter where
  formula_raw : Option String
  name : Option String
  parameters : List (String × ℚ)

/-- The fixed positional schema: 1-based line index to quantity name
(`param_map` in the source). -/
def param_map : List (Nat × String) :=
  [(1, "n_atoms"), (2, "Z"), (3, "mass"), (4, "T0"), (5, "F0"),
   (6, "V0"), (7, "K0"), (8, "K0_p"), (9, "K0K0_pp"), (10, "theta0"),
   (11, "debye_acoustic_2"), (12, "debye_acoustic_3"),
   (13, "sin_acoustic_1"), (14, "sin_acoustic_2"), (15, "sin_acoustic_3"),
   (16, "einstein_1"), (17, "weight_einstein_1"), (18, "einstein_2"),
   (19, "weight_einstein_2"), (20, "einstein_3"), (21, "weight_einstein_3"),
   (22, "einstein_4"), (23, "weight_einstein_4"), (24, "optic_upper"),
   (25, "optic_lower"), (26, "gamma0"), (27, "q0"), (28, "beta"),
   (29, "gammael0"), (30, "q2A2"), (31, "high_temp_approx"),
   (32, "BM_or_Vinet"), (33, "Einstein_or_Debye"), (34, "zero_point_pressure"),
   (35, "G0"), (36, "G0_p"), (37, "G0_T"), (38, "T_crit"), (39, "S_crit"),
   (40, "V_crit"), (41, "van_laar"), (42, "C12_p"), (43, "C44_p")]

/-- `HeFESToParameter.parse_file`: line 0 yields formula and display
name only when it has at least two whitespace tokens; each later line
`i` (1-based) whose first token parses as a float and whose index is in
`param_map` contributes one value. -/
def HeFESToParameter.parse_file (lines : List String) : HeFESToParameter :=
  let hd : Option String × Option String :=
    match lines with
    | [] => (none, none)
    | l0 :: _ =>
      let parts := pySplit l0
      if 2 ≤ parts.length then
        (some (parts.headD ""), some (String.intercalate " " parts.tail))
      else (none, none)
  let params := (lines.drop 1).enum.filterMap (fun p =>
    match pySplit p.2, param_map.lookup (p.1 + 1) with
    | t :: _, some key =>
      match pyFloat t with
      | some v => some (key, v)
      | none => none
    | _, _ => none)
  ⟨hd.1, hd.2, params⟩

/-! ## `PhaseInteraction` (Interaction Matrix Parser) -/

structure PhaseInteraction where
  endmembers : List String
  interactions : List (String × String × ℚ)

/-- The `'Volume' in line` check of the source (substring test). -/
def containsVolume (l : String) : Bool :=
  containsSub l "Volume"

/-- The source's `for idx, line in enumerate(lines)` scan with
`break`: index of the first line satisfying the test, counting from
`idx`. -/
def volumeScan : List String → Nat → Option Nat
  | [], _ => none
  | l :: rest, idx =>
    if containsVolume l then some idx else volumeScan rest (idx + 1)

/-- Index of the first line (line 0 included, as in the source's scan
over `enumerate(lines)`) containing the substring `Volume`; the total
line count when no line does (`volume_line = -1` branch). -/
def volumeLineIdx (lines : List String) : Nat :=
  (volumeScan lines 0).getD lines.length

/-- One cell of a matrix row: parse token `j`, and when it is a
nonzero float record the triple for the row endmember and column
endmember.  `none` covers both the `ValueError` skip and the zero
skip. -/
def rowCell (ems : List String) (rowIdx j : Nat) (vals : List String) :
    Option (String × String × ℚ) :=
  match pyFloat (vals.getD j "") with
  | some W => if W ≠ 0 then some (ems.getD rowIdx "", ems.getD j "", W) else none
  | none => none

/-- One matrix row: columns strictly right of the diagonal, bounded by
the endmember count and the row's token count; nonzero parsed values
become triples, unparsable tokens are skipped. -/
def rowInteractions (ems : List String) (rowIdx : Nat) (vals : List String) :
    List (String × String × ℚ) :=
  (pyRange (rowIdx + 1) (min ems.length vals.length)).filterMap
    (fun j => rowCell ems rowIdx j vals)

/-- The row loop `for i in range(1, min(n + 1, volume_line))` with the
`if i < len(lines)` guard. -/
def interactionRows (lines : List String) (ems : List String) (cutoff : Nat) :
    List (String × String × ℚ) :=
  (pyRange 1 (min (ems.length + 1) cutoff)).flatMap (fun i =>
    if i < lines.length then
      rowInteractions ems (i - 1) (pySplit (lines.getD i ""))
    else [])

/-- `PhaseInteraction.parse_file`. -/
def PhaseInteraction.parse (lines : List String) : PhaseInteraction :=
  match lines with
  | [] => ⟨[], []⟩
  | l0 :: _ =>
    let ems := pySplit l0
    ⟨ems, interactionRows lines ems (volumeLineIdx lines)⟩

/-! ## `format_formula` (Formula Normalizer)

The source scans the formula with a cursor that strictly advances on
every iteration of its `while` loop; the embedding makes that loop a
fueled recursion (`fuel` bounds the number of iterations, and the
character count is always enough fuel — proved below). -/

/-- Greedy match of the regex `\d*\.?\d*`: digits, an optional dot,
more digits; returns the matched text (possibly empty) and the rest. -/
def siteCount (cs : List Char) : String × List Char :=
  let ds := cs.takeWhile Char.isDigit
  let r1 := cs.dropWhile Char.isDigit
  match r1 with
  | '.' :: t =>
    (String.mk ds ++ "." ++ String.mk (t.takeWhile Char.isDigit),
     t.dropWhile Char.isDigit)
  | _ => (String.mk ds, r1)

/-- Greedy match of the regex `\d+\.?\d*` (at least one digit);
`none` when there is no match (nothing consumed). -/
def countMatch (cs : List Char) : Option String × List Char :=
  if (cs.takeWhile Char.isDigit).isEmpty then (none, cs)
  else
    let p := siteCount cs
    (some p.1, p.2)

/-- Match of `re.match(r'_?(\d+\.?\d*)', ...)`: an optional underscore
(consumed only when digits follow, as regex backtracking does) and the
count group. -/
def parenCount (cs : List Char) : Option String × List Char :=
  match cs with
  | '_' :: t =>
    (match countMatch t with
     | (some v, r) => (some v, r)
     | (none, _) => (none, cs))
  | _ => countMatch cs

/-- `re.finditer(r'([A-Z][a-z]?)_?(\d*\.?\d*)', site_str)` together
with the per-match rendering of the source's inner loop: an element is
kept bare when its count is empty or `1`, otherwise the count is
concatenated directly after it. -/
def siteTokens : Nat → List Char → List String
  | 0, _ => []
  | _, [] => []
  | fuel + 1, c :: rest =>
    if c.isUpper then
      let er : String × List Char :=
        match rest with
        | d :: t => if d.isLower then (String.mk [c, d], t) else (String.mk [c], rest)
        | [] => (String.mk [c], [])
      let r2 := match er.2 with
        | '_' :: t => t
        | r => r
      let p := siteCount r2
      (if p.1 = "" ∨ p.1 = "1" then er.1 else er.1 ++ p.1) :: siteTokens fuel p.2
    else siteTokens fuel rest

/-- A parenthesized mixed site rendered as `(...)`. -/
def renderSite (site : List Char) : String :=
  "(" ++ String.join (siteTokens site.length site) ++ ")"

/-- The scanning loop of `format_formula`.  Each step handles `(`,
an uppercase letter, or skips the character. -/
def formatFormulaAux : Nat → List Char → List String
  | 0, _ => []
  | _, [] => []
  | fuel + 1, c :: rest =>
    if c = '(' then
      let site := rest.takeWhile (fun d => d ≠ ')')
      let r1 := rest.dropWhile (fun d => d ≠ ')')
      let r2 := match r1 with
        | ')' :: t => t
        | r => r
      let p := parenCount r2
      (match p.1 with
       | some v => if v = "1" then renderSite site else renderSite site ++ v
       | none => renderSite site) :: formatFormulaAux fuel p.2
    else if c.isUpper then
      let er : String × List Char :=
        match rest with
        | d :: t => if d.isLower then (String.mk [c, d], t) else (String.mk [c], rest)
        | [] => (String.mk [c], [])
      let r2 := match er.2 with
        | '_' :: t => t
        | r => r
      let p := countMatch r2
      (match p.1 with
       | some v => if v = "1" then "(" ++ er.1 ++ ")" else "(" ++ er.1 ++ ")" ++ v
       | none => "(" ++ er.1 ++ ")") :: formatFormulaAux fuel p.2
    else formatFormulaAux fuel rest

/-- `format_formula`: strip the raw formula and run the scanning loop
(character count is enough fuel: every iteration consumes at least one
character). -/
def format_formula (formula_raw : String) : String :=
  let cs := (pyStrip formula_raw).toList
  String.join (formatFormulaAux cs.length cs)

/-! ## The output tree (`xml.etree.ElementTree` model) -/

/-- One markup node: tag, attributes in assignment order, text, and
children in creation order. -/
inductive XMLElem where
  | mk : String → List (String × String) → String → List XMLElem → XMLElem

def XMLElem.tag : XMLElem → String
  | .mk t _ _ _ => t

def XMLElem.attrs : XMLElem → List (String × String)
  | .mk _ a _ _ => a

def XMLElem.text : XMLElem → String
  | .mk _ _ x _ => x

def XMLElem.children : XMLElem → List XMLElem
  | .mk _ _ _ cs => cs

/-- `add_let(parent, name, unit, value)`. -/
def add_let (nm unit val : String) : XMLElem :=
  .mk "let" [("name", nm), ("unit", unit)] val []

/-- One conditional `if key in params: add_let(...)` block of
`add_mineral_phase`. -/
def letIf (v : Option ℚ) (nm unit : String) (fmt : ℚ → String) : List XMLElem :=
  match v with
  | some x => [add_let nm unit (fmt x)]
  | none => []

/-- The ten conditional scalar assignments appended to the base-model
node, in source order. -/
def baseLets (params : List (String × ℚ)) : List XMLElem :=
  letIf (params.lookup "F0") "F0" "J/mol" (fun v => formatFixed v 3 ++ "e3") ++
  letIf (params.lookup "V0") "V0" "m^3/mol" (fun v => formatFixed v 4 ++ "e-6") ++
  letIf (params.lookup "K0") "K0" "Pa" (fun v => formatFixed v 5 ++ "e9") ++
  letIf (params.lookup "K0_p") "K0_p" "1" (fun v => formatFixed v 5) ++
  letIf (params.lookup "theta0") "θ0" "K" (fun v => formatFixed v 4) ++
  letIf (params.lookup "gamma0") "γ0" "1" (fun v => formatFixed v 5) ++
  letIf (params.lookup "q0") "q0" "1" (fun v => formatFixed v 5) ++
  letIf (params.lookup "G0") "G0" "Pa" (fun v => formatFixed v 1 ++ "e9") ++
  letIf (params.lookup "G0_p") "G0_p" "1" (fun v => formatFixed v 5) ++
  letIf (params.lookup "G0_T") "η0" "1" (fun v => formatFixed v 5)

/-- `add_mineral_phase`: Landau wrapping when `T_crit > 0`, flat
base-model node otherwise.  `none` models the `AttributeError` raised
when `mineral.formula_raw` was never assigned. -/
def add_mineral_phase (mineral_id : String) (mineral : HeFESToParameter) :
    Option XMLElem :=
  match mineral.formula_raw with
  | none => none
  | some fr =>
    let params := mineral.parameters
    let T_crit := (params.lookup "T_crit").getD 0
    let S_crit := (params.lookup "S_crit").getD 0
    let V_crit := (params.lookup "V_crit").getD 0
    let blurbText := mineral.name.getD (pyCapitalize mineral_id)
    let inner : List XMLElem :=
      XMLElem.mk "formula" [] (format_formula fr) [] :: baseLets params
    if 0 < T_crit then
      some (.mk "phase"
        [("type", "EoS.DebyeModel.LandauModification, EoS.DebyeModel"),
         ("id", mineral_id)] ""
        [.mk "blurb" [] blurbText [],
         add_let "TC0" "K" (formatFixed T_crit 5),
         add_let "SD" "J/mol/K" (formatFixed S_crit 3),
         add_let "VD" "m^3/mol" (formatFixed V_crit 3 ++ "e-6"),
         .mk "phase"
           [("type", "EoS.DebyeModel.DebyeSolid, EoS.DebyeModel"),
            ("id", mineral_id ++ "/nolandau")] ""
           (XMLElem.mk "blurb" [] (blurbText ++ " (no Landau)") [] :: inner)])
    else
      some (.mk "phase"
        [("type", "EoS.DebyeModel.DebyeSolid, EoS.DebyeModel"),
         ("id", mineral_id)] ""
        (XMLElem.mk "blurb" [] blurbText [] :: inner))

/-- One interaction node with its two phase references. -/
def interactionElem (em1 em2 : String) (W : ℚ) : XMLElem :=
  .mk "interaction" [("unit", "J/mol"), ("value", formatFixed W 1 ++ "e3")] ""
    [.mk "phase" [("ref", em1)] "" [], .mk "phase" [("ref", em2)] "" []]

/-- Static taxonomy entry for one phase group. -/
structure PhaseInfo where
  name : String
  type : String
  allows_negative : Bool
  solution_id : Option String

/-- The endmember loop of `add_phase_group`: endmembers with a record
get a mineral-phase child, the rest are skipped; a record whose
formula was never assigned raises (propagated as `none`). -/
def emChildren (ems : List String)
    (minerals : List (String × HeFESToParameter)) : Option (List XMLElem) :=
  match ems with
  | [] => some []
  | em :: rest =>
    match minerals.lookup em with
    | none => emChildren rest minerals
    | some m => do
      let e ← add_mineral_phase em m
      let es ← emChildren rest minerals
      pure (e :: es)

/-- `add_phase_group`. -/
def add_phase_group (phase_id : String) (info : PhaseInfo)
    (phase_data : PhaseInteraction)
    (minerals : List (String × HeFESToParameter)) : Option XMLElem := do
  let ems ← emChildren phase_data.endmembers minerals
  let negLet : List XMLElem :=
    if info.allows_negative then
      [.mk "let" [("name", "allows-negative-components")] "True" []]
    else []
  let inter := phase_data.interactions.map (fun t => interactionElem t.1 t.2.1 t.2.2)
  pure (.mk "phase" [("type", info.type), ("id", info.solution_id.getD phase_id)] ""
    (XMLElem.mk "blurb" [] info.name [] :: (negLet ++ ems ++ inter)))

/-- `add_standalone_mineral`. -/
def add_standalone_mineral (mineral_id : String) (mineral : HeFESToParameter) :
    Option XMLElem :=
  add_mineral_phase mineral_id mineral

/-! ## Observation helpers for theorem statements -/

/-- Does a child node look like the scalar assignment named `nm`? -/
def letPred (nm : String) (c : XMLElem) : Bool :=
  c.tag == "let" && c.attrs.lookup "name" == some nm

/-- Value text of the scalar assignment named `nm` among `cs`. -/
def findLet (cs : List XMLElem) (nm : String) : Option String :=
  (cs.find? (letPred nm)).map XMLElem.text

/-- Unit attribute of the scalar assignment named `nm` among `cs`. -/
def findLetUnit (cs : List XMLElem) (nm : String) : Option String :=
  (cs.find? (letPred nm)).bind (fun c => c.attrs.lookup "unit")

/-- The endmember ids referenced by an interaction node. -/
def interactionRefs (c : XMLElem) : List String :=
  c.children.filterMap (fun p =>
    if p.tag == "phase" then p.attrs.lookup "ref" else none)

/-- The ids of the mineral-phase children of a phase-group node. -/
def phaseChildIds (e : XMLElem) : List String :=
  e.children.filterMap (fun c =>
    if c.tag == "phase" then c.attrs.lookup "id" else none)

/-- The claimed phase-group invariant: every interaction node
references only ids that are also ids of mineral-phase children. -/
def groupRefInvariant (e : XMLElem) : Bool :=
  e.children.all (fun c =>
    if c.tag == "interaction" then
      (interactionRefs c).all (fun r => (phaseChildIds e).contains r)
    else true)

/-! ## Claim theorems -/

/-- **C6.**  The four normalization examples of the spec hold:
`Mg_2Si_1O_4`, `Fe_1`, `Na_1Mg_2(Al_5Si_1)O_12` and
`(Na_2Mg_1)Si_1Si_1Si_3O_12` are rendered exactly as stated. -/
theorem format_formula_spec_examples :
    format_formula "Mg_2Si_1O_4" = "(Mg)2(Si)(O)4" ∧
    format_formula "Fe_1" = "(Fe)" ∧
    format_formula "Na_1Mg_2(Al_5Si_1)O_12" = "(Na)(Mg)2(Al5Si)(O)12" ∧
    format_formula "(Na_2Mg_1)Si_1Si_1Si_3O_12" = "(Na2Mg)(Si)(Si)(Si)3(O)12" := by
  exact ⟨by decide, by decide, by decide, by decide⟩

/-- **C2 (counterexample).**  A fully empty input does *not* yield a
record with empty `formulaRaw`: the attribute is never assigned
(modelled `none`), which is not the empty string. -/
theorem parse_file_empty_counterexample :
    (HeFESToParameter.parse_file []).formula_raw = none ∧
    (HeFESToParameter.parse_file []).formula_raw ≠ some "" ∧
    (HeFESToParameter.parse_file []).name = none ∧
    (HeFESToParameter.parse_file []).parameters = [] := by
  exact ⟨rfl, by decide, rfl, rfl⟩

/-- **C2 (amended).**  When line 0 has at least two whitespace tokens,
the first token is `formulaRaw` and the remaining tokens joined by
single spaces are `displayName`; with fewer than two tokens (and in
particular for a fully empty input) neither attribute is assigned, and
an empty input also has an empty values mapping. -/
theorem parse_file_header_amended (lines : List String) :
    (2 ≤ (pySplit (lines.headD "")).length →
      (HeFESToParameter.parse_file lines).formula_raw
        = some ((pySplit (lines.headD "")).headD "") ∧
      (HeFESToParameter.parse_file lines).name
        = some (String.intercalate " " (pySplit (lines.headD "")).tail)) ∧
    ((pySplit (lines.headD "")).length < 2 →
      (HeFESToParameter.parse_file lines).formula_raw = none ∧
      (HeFESToParameter.parse_file lines).name = none) ∧
    (lines = [] →
      (HeFESToParameter.parse_file lines).formula_raw = none ∧
      (HeFESToParameter.parse_file lines).name = none ∧
      (HeFESToParameter.parse_file lines).parameters = []) := by
  cases lines with
  | nil =>
    refine ⟨fun h => absurd h (by decide), fun _ => ⟨rfl, rfl⟩, fun _ => ⟨rfl, rfl, rfl⟩⟩
  | cons l0 rest =>
    simp only [List.headD_cons]
    refine ⟨fun h => ⟨?_, ?_⟩, fun h => ⟨?_, ?_⟩, fun h => by cases h⟩
    · show (if 2 ≤ (pySplit l0).length then
          (some ((pySplit l0).headD ""), some (String.intercalate " " (pySplit l0).tail))
        else ((none : Option String), (none : Option String))).1
        = some ((pySplit l0).headD "")
      rw [if_pos h]
    · show (if 2 ≤ (pySplit l0).length then
          (some ((pySplit l0).headD ""), some (String.intercalate " " (pySplit l0).tail))
        else ((none : Option String), (none : Option String))).2
        = some (String.intercalate " " (pySplit l0).tail)
      rw [if_pos h]
    · show (if 2 ≤ (pySplit l0).length then
          (some ((pySplit l0).headD ""), some (String.intercalate " " (pySplit l0).tail))
        else ((none : Option String), (none : Option String))).1 = none
      rw [if_neg (by omega)]
    · show (if 2 ≤ (pySplit l0).length then
          (some ((pySplit l0).headD ""), some (String.intercalate " " (pySplit l0).tail))
        else ((none : Option String), (none : Option String))).2 = none
      rw [if_neg (by omega)]

/-- Witness for the amended C2 theorem at a concrete header line. -/
theorem parse_file_header_amended_witness :
    (HeFESToParameter.parse_file ["Mg_2Si_1O_4 Forsterite"]).formula_raw
      = some "Mg_2Si_1O_4" ∧
    (HeFESToParameter.parse_file ["Mg_2Si_1O_4 Forsterite"]).name
      = some "Forsterite" := by
  have h := (parse_file_header_amended ["Mg_2Si_1O_4 Forsterite"]).1 (by decide)
  exact ⟨h.1.trans (by decide), h.2.trans (by decide)⟩

/-- Modelled from the claim's words for C3: the cutoff row is the
index of the first line *after* line 0 (subsequent lines only) whose
whitespace tokens contain the literal marker token `Volume`; the line
count when no such marker exists. -/
def cutoffClaimed (lines : List String) : Nat :=
  match (lines.drop 1).findIdx? (fun l => (pySplit l).contains "Volume") with
  | some k => k + 1
  | none => lines.length

/-- The energy-interaction rows read with the claimed cutoff. -/
def interactionsClaimed (lines : List String) : List (String × String × ℚ) :=
  match lines with
  | [] => []
  | l0 :: _ => interactionRows lines (pySplit l0) (cutoffClaimed lines)

/-- Amended reading for C3: the cutoff row is the index of the first
line — line 0 included — containing `Volume` as a substring; the line
count when no line does. -/
def cutoffAmended (lines : List String) : Nat :=
  match lines.findIdx? containsVolume with
  | some k => k
  | none => lines.length

/-- The energy-interaction rows read with the amended cutoff. -/
def interactionsAmended (lines : List String) : List (String × String × ℚ) :=
  match lines with
  | [] => []
  | l0 :: _ => interactionRows lines (pySplit l0) (cutoffAmended lines)

/-- **C3 (counterexample).**  On a file whose header line contains
`Volume` only as part of the token `Volumes`, the parser stops at line
0 and reads nothing, while the claimed cutoff (token match, subsequent
lines only) would read the single interaction row. -/
theorem volume_cutoff_counterexample :
    (PhaseInteraction.parse ["Volumes b", "0.0 3.0"]).interactions = [] ∧
    interactionsClaimed ["Volumes b", "0.0 3.0"] = [("Volumes", "b", 3)] := by
  exact ⟨by decide, by decide⟩

/-- The source's scan is the first index whose line passes the
substring test. -/
theorem volumeScan_eq_findIdx (lines : List String) (i : Nat) :
    volumeScan lines i = (lines.findIdx? containsVolume).map (fun k => k + i) := by
  induction lines generalizing i with
  | nil => rfl
  | cons l rest ih =>
    simp only [volumeScan, List.findIdx?_cons]
    by_cases h : containsVolume l
    · simp [h]
    · simp only [h, Bool.false_eq_true, if_false]
      rw [ih]
      cases hfi : rest.findIdx? containsVolume with
      | none => simp [hfi]
      | some k => simp [hfi]; omega

/-- **C3 (amended).**  For every input, the parsed energy interactions
are the rows before the amended cutoff: the first line — line 0
included — containing `Volume` as a substring, or all rows when no
line contains it. -/
theorem parse_interactions_amended (lines : List String) :
    (PhaseInteraction.parse lines).interactions = interactionsAmended lines := by
  cases lines with
  | nil => rfl
  | cons l0 rest =>
    have hc : volumeLineIdx (l0 :: rest) = cutoffAmended (l0 :: rest) := by
      unfold volumeLineIdx cutoffAmended
      rw [volumeScan_eq_findIdx]
      cases (l0 :: rest).findIdx? containsVolume <;> simp
    show interactionRows (l0 :: rest) (pySplit l0) (volumeLineIdx (l0 :: rest)) =
      interactionRows (l0 :: rest) (pySplit l0) (cutoffAmended (l0 :: rest))
    rw [hc]

/-- **C5.**  For endmembers `a b c` and a 3×3 row matrix whose only
nonzero strictly-upper entry is `row0[2] = 5.0`, the parsed
interactions are exactly `[(a, c, 5.0)]`, whatever tokens sit on or
below the diagonal. -/
theorem interaction_upper_triangular_example
    (s1 s2 s3 d0 l10 d1 l20 l21 d2 : String)
    (h1 : pySplit s1 = [d0, "0.0", "5.0"])
    (h2 : pySplit s2 = [l10, d1, "0.0"])
    (h3 : pySplit s3 = [l20, l21, d2])
    (v1 : containsVolume s1 = false) (v2 : containsVolume s2 = false)
    (v3 : containsVolume s3 = false) :
    (PhaseInteraction.parse ["a b c", s1, s2, s3]).interactions = [("a", "c", 5)] := by
  have c1 : rowCell ["a", "b", "c"] 0 1 [d0, "0.0", "5.0"] = none := by
    unfold rowCell
    rw [show List.getD [d0, "0.0", "5.0"] 1 "" = "0.0" from rfl]
    norm_num [show pyFloat "0.0" = some 0 from rfl]
  have c2 : rowCell ["a", "b", "c"] 0 2 [d0, "0.0", "5.0"] = some ("a", "c", 5) := by
    unfold rowCell
    rw [show List.getD [d0, "0.0", "5.0"] 2 "" = "5.0" from rfl]
    norm_num [show pyFloat "5.0" = some 5 from rfl]
  have c3 : rowCell ["a", "b", "c"] 1 2 [l10, d1, "0.0"] = none := by
    unfold rowCell
    rw [show List.getD [l10, d1, "0.0"] 2 "" = "0.0" from rfl]
    norm_num [show pyFloat "0.0" = some 0 from rfl]
  have r0 : rowInteractions ["a", "b", "c"] 0 [d0, "0.0", "5.0"] = [("a", "c", 5)] := by
    unfold rowInteractions
    simp only [show pyRange 1 (min (List.length ["a", "b", "c"])
        (List.length [d0, "0.0", "5.0"])) = [1, 2] from rfl,
      List.filterMap_cons, List.filterMap_nil, c1, c2]
  have r1 : rowInteractions ["a", "b", "c"] 1 [l10, d1, "0.0"] = [] := by
    unfold rowInteractions
    simp only [show pyRange 2 (min (List.length ["a", "b", "c"])
        (List.length [l10, d1, "0.0"])) = [2] from rfl,
      List.filterMap_cons, List.filterMap_nil, c3]
  have r2 : rowInteractions ["a", "b", "c"] 2 [l20, l21, d2] = [] := by
    unfold rowInteractions
    simp only [show pyRange 3 (min (List.length ["a", "b", "c"])
        (List.length [l20, l21, d2])) = [] from rfl, List.filterMap_nil]
  have hvol : volumeLineIdx ["a b c", s1, s2, s3] = 4 := by
    have c0 : containsVolume "a b c" = false := by decide
    simp [volumeLineIdx, volumeScan, c0, v1, v2, v3]
  show interactionRows ["a b c", s1, s2, s3] (pySplit "a b c")
      (volumeLineIdx ["a b c", s1, s2, s3]) = [("a", "c", 5)]
  rw [hvol]
  show rowInteractions ["a", "b", "c"] 0 (pySplit s1) ++
      (rowInteractions ["a", "b", "c"] 1 (pySplit s2) ++
        (rowInteractions ["a", "b", "c"] 2 (pySplit s3) ++ [])) = [("a", "c", 5)]
  rw [h1, h2, h3, r0, r1, r2]
  simp

/-- Witness for C5 on a concrete file with nonzero diagonal and
lower-triangular entries. -/
theorem interaction_upper_triangular_example_witness :
    (PhaseInteraction.parse
      ["a b c", "9.0 0.0 5.0", "8.0 7.0 0.0", "6.0 5.0 4.0"]).interactions
      = [("a", "c", 5)] := by
  exact interaction_upper_triangular_example "9.0 0.0 5.0" "8.0 7.0 0.0" "6.0 5.0 4.0"
    "9.0" "8.0" "7.0" "6.0" "5.0" "4.0" (by decide) (by decide) (by decide)
    (by decide) (by decide) (by decide)

/-- **C8.**  A record with `K0 = 130.0` emits the value string
`130.00000e9` with unit `Pa`, and a record with `F0 = -1442.0` emits
`-1442.000e3` with unit `J/mol`. -/
theorem unit_conversion_value_strings :
    ((add_mineral_phase "per" ⟨some "Mg_1O_1", some "Periclase", [("K0", 130)]⟩).map
      (fun e => (findLet e.children "K0", findLetUnit e.children "K0"))) =
      some (some "130.00000e9", some "Pa") ∧
    ((add_mineral_phase "fo" ⟨some "Mg_2Si_1O_4", some "Forsterite", [("F0", -1442)]⟩).map
      (fun e => (findLet e.children "F0", findLetUnit e.children "F0"))) =
      some (some "-1442.000e3", some "J/mol") := by
  exact ⟨by decide, by decide⟩

/-- Equation lemma: the Landau branch of `add_mineral_phase`. -/
theorem add_mineral_phase_eq_landau (mineral_id fr : String) (nm : Option String)
    (ps : List (String × ℚ)) (t : ℚ)
    (hl : ps.lookup "T_crit" = some t) (ht : 0 < t) :
    add_mineral_phase mineral_id ⟨some fr, nm, ps⟩ = some (XMLElem.mk "phase"
      [("type", "EoS.DebyeModel.LandauModification, EoS.DebyeModel"), ("id", mineral_id)] ""
      [XMLElem.mk "blurb" [] (nm.getD (pyCapitalize mineral_id)) [],
       add_let "TC0" "K" (formatFixed t 5),
       add_let "SD" "J/mol/K" (formatFixed ((ps.lookup "S_crit").getD 0) 3),
       add_let "VD" "m^3/mol" (formatFixed ((ps.lookup "V_crit").getD 0) 3 ++ "e-6"),
       XMLElem.mk "phase" [("type", "EoS.DebyeModel.DebyeSolid, EoS.DebyeModel"),
         ("id", mineral_id ++ "/nolandau")] ""
         (XMLElem.mk "blurb" [] (nm.getD (pyCapitalize mineral_id) ++ " (no Landau)") []
           :: XMLElem.mk "formula" [] (format_formula fr) [] :: baseLets ps)]) := by
  unfold add_mineral_phase
  simp only [hl, Option.getD_some]
  rw [if_pos ht]

/-- Equation lemma: the flat branch of `add_mineral_phase`. -/
theorem add_mineral_phase_eq_flat (mineral_id fr : String) (nm : Option String)
    (ps : List (String × ℚ))
    (hle : ¬ 0 < (ps.lookup "T_crit").getD 0) :
    add_mineral_phase mineral_id ⟨some fr, nm, ps⟩ = some (XMLElem.mk "phase"
      [("type", "EoS.DebyeModel.DebyeSolid, EoS.DebyeModel"), ("id", mineral_id)] ""
      (XMLElem.mk "blurb" [] (nm.getD (pyCapitalize mineral_id)) []
        :: XMLElem.mk "formula" [] (format_formula fr) [] :: baseLets ps)) := by
  unfold add_mineral_phase
  dsimp only
  rw [if_neg hle]

/-- Every node produced by a conditional assignment block is a `let`. -/
theorem tag_of_mem_letIf {c : XMLElem} {v : Option ℚ} {nm unit : String}
    {fmt : ℚ → String} (h : c ∈ letIf v nm unit fmt) : c.tag = "let" := by
  cases v with
  | none => simp [letIf] at h
  | some x =>
    simp only [letIf, List.mem_singleton] at h
    subst h
    rfl

/-- Every node among the base-model assignments is a `let`. -/
theorem tag_of_mem_baseLets {c : XMLElem} {ps : List (String × ℚ)}
    (h : c ∈ baseLets ps) : c.tag = "let" := by
  unfold baseLets at h
  simp only [List.mem_append] at h
  rcases h with ((((((((h | h) | h) | h) | h) | h) | h) | h) | h) | h
  all_goals exact tag_of_mem_letIf h

/-- Searching one conditional assignment block for a named `let`. -/
theorem find?_letPred_letIf (v : Option ℚ) (nm unit : String) (fmt : ℚ → String)
    (target : String) :
    (letIf v nm unit fmt).find? (letPred target) =
      if nm = target then v.map (fun x => add_let nm unit (fmt x)) else none := by
  cases v with
  | none => by_cases h : nm = target <;> simp [letIf, h]
  | some x =>
    by_cases h : nm = target
    · simp [letIf, letPred, add_let, XMLElem.tag, XMLElem.attrs,
        List.find?, List.lookup, h]
    · simp [letIf, letPred, add_let, XMLElem.tag, XMLElem.attrs,
        List.find?, List.lookup, h]
      rw [show (nm == target) = false from beq_eq_false_iff_ne.mpr h]

/-- The stored-quantity key and emitted assignment name of the ten
base-model quantities, in source order. -/
def baseQuantityNames : List (String × String) :=
  [("F0", "F0"), ("V0", "V0"), ("K0", "K0"), ("K0_p", "K0_p"), ("theta0", "θ0"),
   ("gamma0", "γ0"), ("q0", "q0"), ("G0", "G0"), ("G0_p", "G0_p"), ("G0_T", "η0")]

/-- A base-model quantity absent from the record produces no
assignment node. -/
theorem find?_letPred_baseLets_none (ps : List (String × ℚ)) (key target : String)
    (hmem : (key, target) ∈ baseQuantityNames) (h : ps.lookup key = none) :
    (baseLets ps).find? (letPred target) = none := by
  fin_cases hmem <;>
  · unfold baseLets
    simp only [List.find?_append, find?_letPred_letIf]
    simp [h]


/-- **C4.**  When `T_crit` is present and positive the emitted node is
a two-level nested structure: an outer phase-transition node carrying
the three critical quantities with exactly one inner base-model child
whose id carries the `/nolandau` suffix; when `T_crit` is absent or
`0`, a single flat base-model node with no nested phase child is
emitted. -/
theorem landau_wrapping_structure (mineral_id fr : String) (nm : Option String)
    (ps : List (String × ℚ)) :
    (∀ t : ℚ, ps.lookup "T_crit" = some t → 0 < t →
      ∃ e, add_mineral_phase mineral_id ⟨some fr, nm, ps⟩ = some e ∧
        e.tag = "phase" ∧
        e.attrs.lookup "type" = some "EoS.DebyeModel.LandauModification, EoS.DebyeModel" ∧
        e.attrs.lookup "id" = some mineral_id ∧
        (findLet e.children "TC0").isSome ∧ (findLet e.children "SD").isSome ∧
        (findLet e.children "VD").isSome ∧
        (∃ inner, e.children.filter (fun c => c.tag == "phase") = [inner] ∧
          inner.attrs.lookup "type" = some "EoS.DebyeModel.DebyeSolid, EoS.DebyeModel" ∧
          inner.attrs.lookup "id" = some (mineral_id ++ "/nolandau"))) ∧
    ((ps.lookup "T_crit" = none ∨ ps.lookup "T_crit" = some 0) →
      ∃ e, add_mineral_phase mineral_id ⟨some fr, nm, ps⟩ = some e ∧
        e.tag = "phase" ∧
        e.attrs.lookup "type" = some "EoS.DebyeModel.DebyeSolid, EoS.DebyeModel" ∧
        e.attrs.lookup "id" = some mineral_id ∧
        e.children.filter (fun c => c.tag == "phase") = []) := by
  constructor
  · intro t hl ht
    refine ⟨_, add_mineral_phase_eq_landau mineral_id fr nm ps t hl ht,
      rfl, rfl, rfl, rfl, rfl, rfl, ?_⟩
    exact ⟨_, rfl, rfl, rfl⟩
  · intro h
    have hle : ¬ 0 < (ps.lookup "T_crit").getD 0 := by
      rcases h with h | h <;> simp [h]
    refine ⟨_, add_mineral_phase_eq_flat mineral_id fr nm ps hle, rfl, rfl, rfl, ?_⟩
    have hb : ∀ c ∈ baseLets ps, ¬ ((c.tag == "phase") = true) := by
      intro c hc
      rw [tag_of_mem_baseLets hc]
      decide
    dsimp only [XMLElem.children]
    rw [List.filter_cons_of_neg (by simp [XMLElem.tag]), List.filter_cons_of_neg (by simp [XMLElem.tag])]
    exact List.filter_eq_nil_iff.mpr hb


/-- Witness for C4 at `T_crit = 800` and at a record without
`T_crit`. -/
theorem landau_wrapping_structure_witness :
    (∃ e, add_mineral_phase "an" ⟨some "Fe_1", none, [("T_crit", (800 : ℚ))]⟩ = some e ∧
      e.tag = "phase" ∧
      e.attrs.lookup "type" = some "EoS.DebyeModel.LandauModification, EoS.DebyeModel" ∧
      e.attrs.lookup "id" = some "an" ∧
      (findLet e.children "TC0").isSome ∧ (findLet e.children "SD").isSome ∧
      (findLet e.children "VD").isSome ∧
      (∃ inner, e.children.filter (fun c => c.tag == "phase") = [inner] ∧
        inner.attrs.lookup "type" = some "EoS.DebyeModel.DebyeSolid, EoS.DebyeModel" ∧
        inner.attrs.lookup "id" = some ("an" ++ "/nolandau"))) ∧
    (∃ e, add_mineral_phase "st" ⟨some "Si_1O_2", none, [("K0", (305 : ℚ))]⟩ = some e ∧
      e.tag = "phase" ∧
      e.attrs.lookup "type" = some "EoS.DebyeModel.DebyeSolid, EoS.DebyeModel" ∧
      e.attrs.lookup "id" = some "st" ∧
      e.children.filter (fun c => c.tag == "phase") = []) := by
  exact ⟨(landau_wrapping_structure "an" "Fe_1" none [("T_crit", 800)]).1 800
      (by decide) (by decide),
    (landau_wrapping_structure "st" "Si_1O_2" none [("K0", 305)]).2 (Or.inl (by decide))⟩

/-- **C10.**  Under Landau wrapping the outer node always emits all
three critical assignments, substituting `0.0` for an absent `S_crit`
or `V_crit` (the `getD 0` defaults below), while a base-model quantity
absent from the record produces no assignment node at all in the inner
base-model child. -/
theorem landau_critical_defaults (mineral_id fr : String) (nm : Option String)
    (ps : List (String × ℚ)) (t : ℚ)
    (hl : ps.lookup "T_crit" = some t) (ht : 0 < t) :
    ∃ e, add_mineral_phase mineral_id ⟨some fr, nm, ps⟩ = some e ∧
      findLet e.children "TC0" = some (formatFixed t 5) ∧
      findLet e.children "SD" = some (formatFixed ((ps.lookup "S_crit").getD 0) 3) ∧
      findLet e.children "VD" = some (formatFixed ((ps.lookup "V_crit").getD 0) 3 ++ "e-6") ∧
      (∀ inner ∈ e.children, inner.tag = "phase" →
        ∀ p ∈ baseQuantityNames, ps.lookup p.1 = none →
          findLet inner.children p.2 = none) := by
  refine ⟨_, add_mineral_phase_eq_landau mineral_id fr nm ps t hl ht, rfl, rfl, rfl, ?_⟩
  intro inner hin htag p hp habs
  dsimp only [XMLElem.children] at hin
  simp only [List.mem_cons, List.not_mem_nil, or_false] at hin
  rcases hin with h | h | h | h | h
  · rw [h] at htag; exact absurd htag (by simp [XMLElem.tag])
  · rw [h] at htag; exact absurd htag (by simp [XMLElem.tag, add_let])
  · rw [h] at htag; exact absurd htag (by simp [XMLElem.tag, add_let])
  · rw [h] at htag; exact absurd htag (by simp [XMLElem.tag, add_let])
  · subst h
    have hbase : (baseLets ps).find? (letPred p.2) = none :=
      find?_letPred_baseLets_none ps p.1 p.2 hp habs
    unfold findLet
    dsimp only [XMLElem.children]
    simp only [List.find?_cons]
    rw [show letPred p.2 (XMLElem.mk "blurb" []
      (nm.getD (pyCapitalize mineral_id) ++ " (no Landau)") []) = false from rfl]
    rw [show letPred p.2 (XMLElem.mk "formula" [] (format_formula fr) []) = false from rfl]
    rw [hbase]
    rfl


/-- Witness for C10 at a record with `T_crit = 800` and no other
quantity. -/
theorem landau_critical_defaults_witness :
    ∃ e, add_mineral_phase "an" ⟨some "Fe_1", none, [("T_crit", (800 : ℚ))]⟩ = some e ∧
      findLet e.children "TC0" = some (formatFixed 800 5) ∧
      findLet e.children "SD" = some (formatFixed 0 3) ∧
      findLet e.children "VD" = some (formatFixed 0 3 ++ "e-6") ∧
      (∀ inner ∈ e.children, inner.tag = "phase" →
        ∀ p ∈ baseQuantityNames, ([("T_crit", (800 : ℚ))]).lookup p.1 = none →
          findLet inner.children p.2 = none) := by
  exact landau_critical_defaults "an" "Fe_1" none [("T_crit", 800)] 800
    (by decide) (by decide)

/-- Dropping a prefix cannot lengthen a list. -/
theorem length_dropWhile_le (p : Char → Bool) (l : List Char) :
    (l.dropWhile p).length ≤ l.length :=
  (List.dropWhile_sublist p).length_le

/-- `siteCount` only consumes input. -/
theorem siteCount_length (cs : List Char) : (siteCount cs).2.length ≤ cs.length := by
  unfold siteCount
  dsimp only
  have h1 : (cs.dropWhile Char.isDigit).length ≤ cs.length := length_dropWhile_le _ _
  split
  · next t heq =>
    have h2 : (t.dropWhile Char.isDigit).length ≤ t.length := length_dropWhile_le _ _
    have h3 : t.length + 1 = (cs.dropWhile Char.isDigit).length := by rw [heq]; rfl
    simp only []
    omega
  · next heq => exact h1

/-- `countMatch` only consumes input. -/
theorem countMatch_length (cs : List Char) : (countMatch cs).2.length ≤ cs.length := by
  unfold countMatch
  split
  · exact Nat.le_refl _
  · exact siteCount_length cs

/-- `parenCount` only consumes input. -/
theorem parenCount_length (cs : List Char) : (parenCount cs).2.length ≤ cs.length := by
  unfold parenCount
  split
  · next t =>
    split
    · next v r heq =>
      have := countMatch_length t
      rw [heq] at this
      simp only []
      calc r.length ≤ t.length := this
        _ ≤ t.length + 1 := Nat.le_succ _
    · exact Nat.le_refl _
  · exact countMatch_length cs

/-- Skipping a closing parenthesis only consumes input. -/
theorem skipParen_length (l : List Char) :
    (match l with | ')' :: t => t | r => r).length ≤ l.length := by
  split
  · exact Nat.le_succ _
  · exact Nat.le_refl _


/-- Every iteration of the scanning loop consumes at least one
character, so any fuel at least the character count yields the same
output (strong induction on a bound of the length). -/
theorem formatFormulaAux_fuel_aux : ∀ (n : Nat) (cs : List Char), cs.length ≤ n →
    ∀ f1 f2, cs.length ≤ f1 → cs.length ≤ f2 →
      formatFormulaAux f1 cs = formatFormulaAux f2 cs := by
  intro n
  induction n with
  | zero =>
    intro cs hcs f1 f2 _ _
    have : cs = [] := List.length_eq_zero.mp (Nat.le_zero.mp hcs)
    subst this
    cases f1 <;> cases f2 <;> rfl
  | succ n ih =>
    intro cs hcs f1 f2 h1 h2
    cases cs with
    | nil => cases f1 <;> cases f2 <;> rfl
    | cons c rest =>
      match f1, f2 with
      | f1 + 1, f2 + 1 =>
        simp only [formatFormulaAux]
        by_cases hp : c = '('
        · rw [if_pos hp, if_pos hp]
          have hrem : (parenCount (match rest.dropWhile (fun d => d ≠ ')') with
              | ')' :: t => t
              | r => r)).2.length ≤ rest.length := by
            calc (parenCount _).2.length
                ≤ (match rest.dropWhile (fun d => d ≠ ')') with
                    | ')' :: t => t
                    | r => r).length := parenCount_length _
              _ ≤ (rest.dropWhile (fun d => d ≠ ')')).length := skipParen_length _
              _ ≤ rest.length := length_dropWhile_le _ _
          refine congrArg _ (ih _ ?_ f1 f2 ?_ ?_)
          · simp only [List.length_cons] at hcs; omega
          · simp only [List.length_cons] at h1; omega
          · simp only [List.length_cons] at h2; omega
        · rw [if_neg hp, if_neg hp]
          by_cases hu : c.isUpper
          · rw [if_pos hu, if_pos hu]
            have hrem : (countMatch (match (match rest with
                | d :: t => if d.isLower then ((String.mk [c, d]), t) else ((String.mk [c]), rest)
                | [] => ((String.mk [c]), [])).2 with
                | '_' :: t => t
                | r => r)).2.length ≤ rest.length := by
              have her : (match rest with
                  | d :: t => if d.isLower then ((String.mk [c, d]), t) else ((String.mk [c]), rest)
                  | [] => ((String.mk [c]), [])).2.length ≤ rest.length := by
                match rest with
                | [] => exact Nat.le_refl _
                | d :: t =>
                  by_cases hl : d.isLower
                  · simp only [hl, if_true]
                    exact Nat.le_succ _
                  · simp only [hl, Bool.false_eq_true, if_false]
                    exact Nat.le_refl _
              have hu2 : (match (match rest with
                  | d :: t => if d.isLower then ((String.mk [c, d]), t) else ((String.mk [c]), rest)
                  | [] => ((String.mk [c]), [])).2 with
                  | '_' :: t => t
                  | r => r).length ≤ (match rest with
                  | d :: t => if d.isLower then ((String.mk [c, d]), t) else ((String.mk [c]), rest)
                  | [] => ((String.mk [c]), [])).2.length := by
                split
                · next t heq => rw [heq]; exact Nat.le_succ _
                · exact Nat.le_refl _
              calc (countMatch _).2.length ≤ _ := countMatch_length _
                _ ≤ _ := hu2
                _ ≤ rest.length := her
            refine congrArg _ (ih _ ?_ f1 f2 ?_ ?_)
            · simp only [List.length_cons] at hcs; omega
            · simp only [List.length_cons] at h1; omega
            · simp only [List.length_cons] at h2; omega
          · rw [if_neg hu, if_neg hu]
            refine ih _ ?_ f1 f2 ?_ ?_
            · simp only [List.length_cons] at hcs; omega
            · simp only [List.length_cons] at h1; omega
            · simp only [List.length_cons] at h2; omega


/-- **C9.**  The Formula Normalizer is total and lenient: a character
that is not an uppercase letter and not `(` is skipped (one loop step
consumes exactly it and changes nothing else), and the scanning loop
terminates on every input — its result is independent of the fuel
bound once the fuel covers the character count, so `format_formula`'s
choice of fuel always suffices and every input yields a string. -/
theorem normalizer_skip_and_fuel_independent :
    (∀ (c : Char) (cs : List Char) (fuel : Nat), c.isUpper = false → c ≠ '(' →
      formatFormulaAux (fuel + 1) (c :: cs) = formatFormulaAux fuel cs) ∧
    (∀ (cs : List Char) (f1 f2 : Nat), cs.length ≤ f1 → cs.length ≤ f2 →
      formatFormulaAux f1 cs = formatFormulaAux f2 cs) := by
  constructor
  · intro c cs fuel hu hp
    simp only [formatFormulaAux]
    rw [if_neg hp, if_neg (by simp [hu])]
  · intro cs f1 f2 h1 h2
    exact formatFormulaAux_fuel_aux cs.length cs (Nat.le_refl _) f1 f2 h1 h2

/-- Witness for C9: a concrete skipped character and a concrete fuel
change. -/
theorem normalizer_skip_witness :
    formatFormulaAux 8 ('z' :: "Fe_1".toList) = formatFormulaAux 7 "Fe_1".toList ∧
    formatFormulaAux 99 "Fe_1".toList = formatFormulaAux 4 "Fe_1".toList := by
  exact ⟨normalizer_skip_and_fuel_independent.1 'z' "Fe_1".toList 7 (by decide) (by decide),
    normalizer_skip_and_fuel_independent.2 "Fe_1".toList 99 4 (by decide) (by decide)⟩

/-- Two triples name the same unordered endmember pair. -/
def samePair (x y : String × String × ℚ) : Bool :=
  (x.1 == y.1 && x.2.1 == y.2.1) || (x.1 == y.2.1 && x.2.1 == y.1)

/-- **C7 (counterexample).**  With the duplicated endmember list
`a a b` the parser emits two triples for the unordered pair `{a, b}`
(and an `(a, a)` triple), so the one-triple-per-unordered-pair
invariant fails as stated for arbitrary input. -/
theorem interaction_pair_uniqueness_counterexample :
    (PhaseInteraction.parse ["a a b", "0 1 2", "0 0 3"]).interactions
      = [("a", "a", 1), ("a", "b", 2), ("a", "b", 3)] ∧
    ¬ List.Pairwise (fun x y => samePair x y = false)
      (PhaseInteraction.parse ["a a b", "0 1 2", "0 0 3"]).interactions := by
  exact ⟨by decide, by decide⟩

/-- Distinct positions of a duplicate-free list hold distinct
entries. -/
theorem getD_ne_of_nodup {l : List String} (h : l.Nodup) {i j : Nat}
    (hi : i < l.length) (hj : j < l.length) (hij : i ≠ j) :
    l.getD i "" ≠ l.getD j "" := by
  intro he
  rw [List.getD_eq_getElem?_getD, List.getD_eq_getElem?_getD,
    List.getElem?_eq_getElem hi, List.getElem?_eq_getElem hj] at he
  simp only [Option.getD_some] at he
  have := List.nodup_iff_injective_getElem.mp h
    (show (fun i : Fin l.length => l[i.1]) ⟨i, hi⟩ = (fun i : Fin l.length => l[i.1]) ⟨j, hj⟩
      from he)
  exact hij (congrArg Fin.val this)

/-- A produced cell names the row and column endmembers and a nonzero
coefficient. -/
theorem rowCell_eq_some {ems : List String} {r j : Nat} {vs : List String}
    {x : String × String × ℚ} (h : rowCell ems r j vs = some x) :
    x.1 = ems.getD r "" ∧ x.2.1 = ems.getD j "" ∧ x.2.2 ≠ 0 := by
  unfold rowCell at h
  cases hpf : pyFloat (vs.getD j "") with
  | none => rw [hpf] at h; cases h
  | some W =>
    rw [hpf] at h
    by_cases hW : W = 0
    · simp [hW] at h
    · simp only [ne_eq, hW, not_false_eq_true, if_true, Option.some.injEq] at h
      subst h
      exact ⟨rfl, rfl, hW⟩

/-- Every triple of a row joins the row endmember with one strictly
later endmember and has a nonzero coefficient. -/
theorem mem_rowInteractions {ems : List String} {r : Nat} {vs : List String}
    {x : String × String × ℚ} (h : x ∈ rowInteractions ems r vs) :
    x.2.2 ≠ 0 ∧ ∃ j, r < j ∧ j < ems.length ∧
      x.1 = ems.getD r "" ∧ x.2.1 = ems.getD j "" := by
  unfold rowInteractions at h
  rw [List.mem_filterMap] at h
  obtain ⟨j, hj, hcell⟩ := h
  unfold pyRange at hj
  rw [List.mem_range'] at hj
  obtain ⟨i, hi, rfl⟩ := hj
  obtain ⟨e1, e2, e3⟩ := rowCell_eq_some hcell
  exact ⟨e3, r + 1 + 1 * i, by omega, by omega, e1, e2⟩


/-- Within one row, distinct produced triples name distinct unordered
pairs (the column indices differ). -/
theorem pairwise_rowInteractions {ems : List String} (hnd : ems.Nodup)
    (r : Nat) (vs : List String) :
    List.Pairwise (fun x y => samePair x y = false) (rowInteractions ems r vs) := by
  unfold rowInteractions
  rw [List.pairwise_filterMap]
  refine List.Pairwise.imp_of_mem ?_ (List.pairwise_lt_range' _ _)
  intro j1 j2 hm1 hm2 hlt x hx y hy
  unfold pyRange at hm1 hm2
  rw [List.mem_range'] at hm1 hm2
  obtain ⟨a1, ha1, rfl⟩ := hm1
  obtain ⟨a2, ha2, rfl⟩ := hm2
  obtain ⟨ex1, ex2, _⟩ := rowCell_eq_some (Option.mem_def.mp hx)
  obtain ⟨ey1, ey2, _⟩ := rowCell_eq_some (Option.mem_def.mp hy)
  have hj1n : r + 1 + 1 * a1 < ems.length := by omega
  have hj2n : r + 1 + 1 * a2 < ems.length := by omega
  have hrn : r < ems.length := by omega
  have hb1 : (ems.getD (r + 1 + 1 * a1) "" == ems.getD (r + 1 + 1 * a2) "") = false :=
    beq_eq_false_iff_ne.mpr (getD_ne_of_nodup hnd hj1n hj2n (by omega))
  have hb2 : (ems.getD r "" == ems.getD (r + 1 + 1 * a2) "") = false :=
    beq_eq_false_iff_ne.mpr (getD_ne_of_nodup hnd hrn hj2n (by omega))
  unfold samePair
  rw [ex1, ex2, ey1, ey2, hb1, hb2]
  simp

/-- Across the whole matrix, distinct produced triples name distinct
unordered pairs: within a row the columns differ, across rows the row
endmembers differ and a row endmember never reappears as the second
component of a later row. -/
theorem pairwise_interactionRows {ems : List String} (hnd : ems.Nodup)
    (lines : List String) (cutoff : Nat) :
    List.Pairwise (fun x y => samePair x y = false)
      (interactionRows lines ems cutoff) := by
  unfold interactionRows
  rw [List.pairwise_flatMap]
  constructor
  · intro i _
    by_cases hlen : i < lines.length
    · rw [if_pos hlen]
      exact pairwise_rowInteractions hnd (i - 1) _
    · rw [if_neg hlen]
      exact List.Pairwise.nil
  · refine List.Pairwise.imp_of_mem ?_ (List.pairwise_lt_range' _ _)
    intro i1 i2 hm1 hm2 hlt x hx y hy
    unfold pyRange at hm1 hm2
    rw [List.mem_range'] at hm1 hm2
    obtain ⟨a1, ha1, rfl⟩ := hm1
    obtain ⟨a2, ha2, rfl⟩ := hm2
    by_cases hl1 : 1 + 1 * a1 < lines.length
    case neg => rw [if_neg hl1] at hx; cases hx
    by_cases hl2 : 1 + 1 * a2 < lines.length
    case neg => rw [if_neg hl2] at hy; cases hy
    rw [if_pos hl1] at hx
    rw [if_pos hl2] at hy
    obtain ⟨_, j1, hj1r, hj1n, ex1, ex2⟩ := mem_rowInteractions hx
    obtain ⟨_, j2, hj2r, hj2n, ey1, ey2⟩ := mem_rowInteractions hy
    have hr1n : 1 + 1 * a1 - 1 < ems.length := by omega
    have hr2n : 1 + 1 * a2 - 1 < ems.length := by omega
    have hb1 : (ems.getD (1 + 1 * a1 - 1) "" == ems.getD (1 + 1 * a2 - 1) "") = false :=
      beq_eq_false_iff_ne.mpr (getD_ne_of_nodup hnd hr1n hr2n (by omega))
    have hb2 : (ems.getD (1 + 1 * a1 - 1) "" == ems.getD j2 "") = false :=
      beq_eq_false_iff_ne.mpr (getD_ne_of_nodup hnd hr1n hj2n (by omega))
    unfold samePair
    rw [ex1, ex2, ey1, ey2, hb1, hb2]
    simp


/-- **C7 (amended).**  Provided the endmember names on line 0 are
pairwise distinct, every parsed table satisfies the claimed
invariants: each triple pairs an endmember with a strictly later one,
no coefficient is `0.0`, and no two triples name the same unordered
pair. -/
theorem interaction_table_invariants_amended (lines : List String)
    (hnd : (PhaseInteraction.parse lines).endmembers.Nodup) :
    (∀ x ∈ (PhaseInteraction.parse lines).interactions,
      x.2.2 ≠ 0 ∧ ∃ i j, i < j ∧
        j < (PhaseInteraction.parse lines).endmembers.length ∧
        x.1 = (PhaseInteraction.parse lines).endmembers.getD i "" ∧
        x.2.1 = (PhaseInteraction.parse lines).endmembers.getD j "") ∧
    List.Pairwise (fun x y => samePair x y = false)
      (PhaseInteraction.parse lines).interactions := by
  cases lines with
  | nil => exact ⟨fun x hx => absurd hx (List.not_mem_nil x), List.Pairwise.nil⟩
  | cons l0 rest =>
    constructor
    · intro x hx
      have hx' : x ∈ interactionRows (l0 :: rest) (pySplit l0)
          (volumeLineIdx (l0 :: rest)) := hx
      unfold interactionRows at hx'
      rw [List.mem_flatMap] at hx'
      obtain ⟨i, hi, hxin⟩ := hx'
      unfold pyRange at hi
      rw [List.mem_range'] at hi
      obtain ⟨a, ha, rfl⟩ := hi
      by_cases hlen : 1 + 1 * a < (l0 :: rest).length
      case neg => rw [if_neg hlen] at hxin; cases hxin
      rw [if_pos hlen] at hxin
      obtain ⟨h0, j, hjr, hjn, e1, e2⟩ := mem_rowInteractions hxin
      exact ⟨h0, 1 + 1 * a - 1, j, hjr, hjn, e1, e2⟩
    · exact pairwise_interactionRows hnd (l0 :: rest) _

/-- Witness for the amended C7 on a two-endmember file. -/
theorem interaction_table_invariants_amended_witness :
    (∀ x ∈ (PhaseInteraction.parse ["a b", "0.0 3.0"]).interactions,
      x.2.2 ≠ 0 ∧ ∃ i j, i < j ∧
        j < (PhaseInteraction.parse ["a b", "0.0 3.0"]).endmembers.length ∧
        x.1 = (PhaseInteraction.parse ["a b", "0.0 3.0"]).endmembers.getD i "" ∧
        x.2.1 = (PhaseInteraction.parse ["a b", "0.0 3.0"]).endmembers.getD j "") ∧
    List.Pairwise (fun x y => samePair x y = false)
      (PhaseInteraction.parse ["a b", "0.0 3.0"]).interactions := by
  exact interaction_table_invariants_amended ["a b", "0.0 3.0"] (by decide)

/-- An in-range default access is a member. -/
theorem getD_mem {l : List String} {i : Nat} (h : i < l.length) : l.getD i "" ∈ l := by
  rw [List.getD_eq_getElem?_getD, List.getElem?_eq_getElem h]
  exact List.getElem_mem h

/-- Both ids referenced by any parsed interaction come from the
endmember sequence. -/
theorem mem_parse_interactions {lines : List String} {x : String × String × ℚ}
    (hx : x ∈ (PhaseInteraction.parse lines).interactions) :
    x.1 ∈ (PhaseInteraction.parse lines).endmembers ∧
    x.2.1 ∈ (PhaseInteraction.parse lines).endmembers := by
  cases lines with
  | nil => cases hx
  | cons l0 rest =>
    have hx' : x ∈ interactionRows (l0 :: rest) (pySplit l0)
        (volumeLineIdx (l0 :: rest)) := hx
    unfold interactionRows at hx'
    rw [List.mem_flatMap] at hx'
    obtain ⟨i, hi, hxin⟩ := hx'
    unfold pyRange at hi
    rw [List.mem_range'] at hi
    obtain ⟨a, ha, rfl⟩ := hi
    by_cases hlen : 1 + 1 * a < (l0 :: rest).length
    case neg => rw [if_neg hlen] at hxin; cases hxin
    rw [if_pos hlen] at hxin
    obtain ⟨_, j, hjr, hjn, e1, e2⟩ := mem_rowInteractions hxin
    constructor
    · rw [e1]
      exact getD_mem (show 1 + 1 * a - 1 < (pySplit l0).length by omega)
    · rw [e2]
      exact getD_mem hjn

/-- Both branches of `add_mineral_phase` emit a `phase` node whose id
is the mineral id. -/
theorem add_mineral_phase_tag_id {em : String} {m : HeFESToParameter} {e0 : XMLElem}
    (h : add_mineral_phase em m = some e0) :
    e0.tag = "phase" ∧ e0.attrs.lookup "id" = some em := by
  unfold add_mineral_phase at h
  cases hfr : m.formula_raw with
  | none => rw [hfr] at h; cases h
  | some fr =>
    rw [hfr] at h
    dsimp only at h
    by_cases hT : 0 < (m.parameters.lookup "T_crit").getD 0
    · rw [if_pos hT] at h
      obtain rfl := Option.some.inj h
      exact ⟨rfl, rfl⟩
    · rw [if_neg hT] at h
      obtain rfl := Option.some.inj h
      exact ⟨rfl, rfl⟩

/-- When the endmember loop succeeds: every child is a `phase` node,
and every endmember possessing a record is represented by a child
carrying its id. -/
theorem emChildren_spec : ∀ (ems : List String)
    (minerals : List (String × HeFESToParameter)) (L : List XMLElem),
    emChildren ems minerals = some L →
    (∀ c ∈ L, c.tag = "phase") ∧
    (∀ em ∈ ems, ∀ m, minerals.lookup em = some m →
      ∃ c ∈ L, c.tag = "phase" ∧ c.attrs.lookup "id" = some em) := by
  intro ems
  induction ems with
  | nil =>
    intro minerals L h
    obtain rfl := Option.some.inj h.symm
    exact ⟨fun c hc => absurd hc (List.not_mem_nil c), fun em hem => absurd hem (List.not_mem_nil em)⟩
  | cons em rest ih =>
    intro minerals L h
    unfold emChildren at h
    cases hlk : minerals.lookup em with
    | none =>
      rw [hlk] at h
      obtain ⟨h1, h2⟩ := ih minerals L h
      refine ⟨h1, fun em2 hem2 m hm => ?_⟩
      rcases List.mem_cons.mp hem2 with rfl | hem2
      · rw [hlk] at hm; cases hm
      · exact h2 em2 hem2 m hm
    | some m0 =>
      rw [hlk] at h
      replace h : (add_mineral_phase em m0).bind (fun e0 =>
          (emChildren rest minerals).bind (fun es => some (e0 :: es))) = some L := h
      cases hmp : add_mineral_phase em m0 with
      | none => rw [hmp] at h; exact Option.noConfusion h
      | some e0 =>
        rw [hmp] at h
        cases hrest : emChildren rest minerals with
        | none =>
          rw [hrest] at h
          exact Option.noConfusion h
        | some L2 =>
          rw [hrest] at h
          replace h : some (e0 :: L2) = some L := h
          obtain rfl := Option.some.inj h
          obtain ⟨h1, h2⟩ := ih minerals L2 hrest
          obtain ⟨ht, hid⟩ := add_mineral_phase_tag_id hmp
          constructor
          · intro c hc
            rcases List.mem_cons.mp hc with rfl | hc
            · exact ht
            · exact h1 c hc
          · intro em2 hem2 m hm
            rcases List.mem_cons.mp hem2 with rfl | hem2
            · rw [hlk] at hm
              obtain rfl := Option.some.inj hm
              exact ⟨e0, List.mem_cons_self .., ht, hid⟩
            · obtain ⟨c, hcL, hct, hcid⟩ := h2 em2 hem2 m hm
              exact ⟨c, List.mem_cons_of_mem _ hcL, hct, hcid⟩


/-- **C1 (amended).**  For a generated phase-group node, provided
every endmember id referenced by an interaction has a parsed
ParameterRecord, every interaction node references only ids that are
also emitted as mineral-phase children of the same group.  (Without
that proviso the code emits the interaction nodes anyway — see the
counterexample.) -/
theorem group_interaction_refs_amended (lines : List String)
    (minerals : List (String × HeFESToParameter)) (phase_id : String)
    (info : PhaseInfo) (e : XMLElem)
    (hgroup : add_phase_group phase_id info (PhaseInteraction.parse lines) minerals
      = some e)
    (hrec : ∀ em, (∃ t ∈ (PhaseInteraction.parse lines).interactions,
      t.1 = em ∨ t.2.1 = em) → (minerals.lookup em).isSome) :
    groupRefInvariant e = true := by
  replace hgroup : (emChildren (PhaseInteraction.parse lines).endmembers minerals).bind
      (fun ems => some (XMLElem.mk "phase"
        [("type", info.type), ("id", info.solution_id.getD phase_id)] ""
        (XMLElem.mk "blurb" [] info.name [] ::
          ((if info.allows_negative then
              [XMLElem.mk "let" [("name", "allows-negative-components")] "True" []]
            else []) ++ ems ++ (PhaseInteraction.parse lines).interactions.map
              (fun t => interactionElem t.1 t.2.1 t.2.2))))) = some e := hgroup
  cases hem : emChildren (PhaseInteraction.parse lines).endmembers minerals with
  | none => rw [hem] at hgroup; exact Option.noConfusion hgroup
  | some ems =>
    rw [hem] at hgroup
    replace hgroup : some (XMLElem.mk "phase"
        [("type", info.type), ("id", info.solution_id.getD phase_id)] ""
        (XMLElem.mk "blurb" [] info.name [] ::
          ((if info.allows_negative then
              [XMLElem.mk "let" [("name", "allows-negative-components")] "True" []]
            else []) ++ ems ++ (PhaseInteraction.parse lines).interactions.map
              (fun t => interactionElem t.1 t.2.1 t.2.2)))) = some e := hgroup
    obtain rfl := Option.some.inj hgroup
    obtain ⟨hall, hfind⟩ := emChildren_spec _ minerals ems hem
    have hchild : ∀ em, em ∈ (PhaseInteraction.parse lines).endmembers →
        (minerals.lookup em).isSome → (phaseChildIds (XMLElem.mk "phase"
          [("type", info.type), ("id", info.solution_id.getD phase_id)] ""
          (XMLElem.mk "blurb" [] info.name [] ::
            ((if info.allows_negative then
                [XMLElem.mk "let" [("name", "allows-negative-components")] "True" []]
              else []) ++ ems ++ (PhaseInteraction.parse lines).interactions.map
                (fun t => interactionElem t.1 t.2.1 t.2.2))))).contains em = true := by
      intro em hmem hsome
      obtain ⟨m, hm⟩ := Option.isSome_iff_exists.mp hsome
      obtain ⟨c, hcL, hct, hcid⟩ := hfind em hmem m hm
      have hcchild : c ∈ (XMLElem.mk "phase"
          [("type", info.type), ("id", info.solution_id.getD phase_id)] ""
          (XMLElem.mk "blurb" [] info.name [] ::
            ((if info.allows_negative then
                [XMLElem.mk "let" [("name", "allows-negative-components")] "True" []]
              else []) ++ ems ++ (PhaseInteraction.parse lines).interactions.map
                (fun t => interactionElem t.1 t.2.1 t.2.2)))).children := by
        dsimp only [XMLElem.children]
        exact List.mem_cons_of_mem _ (List.mem_append_left _ (List.mem_append_right _ hcL))
      have hid : em ∈ phaseChildIds (XMLElem.mk "phase"
          [("type", info.type), ("id", info.solution_id.getD phase_id)] ""
          (XMLElem.mk "blurb" [] info.name [] ::
            ((if info.allows_negative then
                [XMLElem.mk "let" [("name", "allows-negative-components")] "True" []]
              else []) ++ ems ++ (PhaseInteraction.parse lines).interactions.map
                (fun t => interactionElem t.1 t.2.1 t.2.2)))) := by
        unfold phaseChildIds
        rw [List.mem_filterMap]
        refine ⟨c, hcchild, ?_⟩
        rw [show (c.tag == "phase") = true from by rw [hct]; rfl]
        simpa using hcid
      exact List.elem_eq_true_of_mem hid
    unfold groupRefInvariant
    rw [List.all_eq_true]
    intro c hc
    dsimp only [XMLElem.children] at hc
    rcases List.mem_cons.mp hc with rfl | hc
    · rfl
    rw [List.mem_append] at hc
    rcases hc with hc | hc
    · rw [List.mem_append] at hc
      rcases hc with hc | hc
      · by_cases hn : info.allows_negative
        · rw [if_pos hn] at hc
          obtain rfl := List.mem_singleton.mp hc
          rfl
        · rw [if_neg hn] at hc
          exact absurd hc (List.not_mem_nil c)
      · rw [show (c.tag == "interaction") = false from by rw [hall c hc]; rfl]
        rfl
    · obtain ⟨t, htmem, rfl⟩ := List.mem_map.mp hc
      rw [show ((interactionElem t.1 t.2.1 t.2.2).tag == "interaction") = true from rfl]
      show (interactionRefs (interactionElem t.1 t.2.1 t.2.2)).all _ = true
      rw [show interactionRefs (interactionElem t.1 t.2.1 t.2.2) = [t.1, t.2.1] from rfl]
      rw [List.all_eq_true]
      intro r hr
      obtain ⟨hm1, hm2⟩ := mem_parse_interactions htmem
      rcases List.mem_cons.mp hr with rfl | hr
      · exact hchild t.1 hm1 (hrec t.1 ⟨t, htmem, Or.inl rfl⟩)
      · obtain rfl := List.mem_singleton.mp hr
        exact hchild t.2.1 hm2 (hrec t.2.1 ⟨t, htmem, Or.inr rfl⟩)


/-- **C1 (counterexample).**  With endmembers `a b`, one interaction
`(a, b, 3.0)`, and a record mapping containing only `b`, the emitted
group has an interaction node referencing `a` but no mineral-phase
child with id `a`: the claimed invariant is false for arbitrary
generated output. -/
theorem group_interaction_ref_counterexample :
    ((add_phase_group "ol" ⟨"Olivine", "EoS.Phases.RegularSolution, EoS.Core", false, none⟩
      (PhaseInteraction.parse ["a b", "0.0 3.0"])
      [("b", ⟨some "Fe_1", some "B", []⟩)]).map groupRefInvariant) = some false := by
  decide

/-- Witness for the amended C1 on a group whose two endmembers both
have records. -/
theorem group_interaction_refs_amended_witness :
    ((add_phase_group "ol" ⟨"Olivine", "EoS.Phases.RegularSolution, EoS.Core", false, none⟩
        (PhaseInteraction.parse ["a b", "0.0 3.0"])
        [("a", ⟨some "Mg_1", some "A", []⟩), ("b", ⟨some "Fe_1", some "B", []⟩)]).map
      groupRefInvariant) = some true := by
  have hrec : ∀ em, (∃ t ∈ (PhaseInteraction.parse ["a b", "0.0 3.0"]).interactions,
      t.1 = em ∨ t.2.1 = em) →
      (([("a", (⟨some "Mg_1", some "A", []⟩ : HeFESToParameter)),
        ("b", ⟨some "Fe_1", some "B", []⟩)]).lookup em).isSome := by
    intro em hex
    obtain ⟨t, ht, hor⟩ := hex
    rw [show (PhaseInteraction.parse ["a b", "0.0 3.0"]).interactions
      = [("a", "b", 3)] from by decide] at ht
    obtain rfl := List.mem_singleton.mp ht
    rcases hor with rfl | rfl
    · decide
    · decide
  cases hgp : add_phase_group "ol"
      ⟨"Olivine", "EoS.Phases.RegularSolution, EoS.Core", false, none⟩
      (PhaseInteraction.parse ["a b", "0.0 3.0"])
      [("a", ⟨some "Mg_1", some "A", []⟩), ("b", ⟨some "Fe_1", some "B", []⟩)] with
  | none =>
    have hsome : (add_phase_group "ol"
        ⟨"Olivine", "EoS.Phases.RegularSolution, EoS.Core", false, none⟩
        (PhaseInteraction.parse ["a b", "0.0 3.0"])
        [("a", ⟨some "Mg_1", some "A", []⟩),
         ("b", ⟨some "Fe_1", some "B", []⟩)]).isSome = true := by decide
    rw [hgp] at hsome
    exact Bool.noConfusion hsome
  | some e =>
    rw [Option.map_some']
    rw [group_interaction_refs_amended ["a b", "0.0 3.0"]
      [("a", ⟨some "Mg_1", some "A", []⟩), ("b", ⟨some "Fe_1", some "B", []⟩)] "ol"
      ⟨"Olivine", "EoS.Phases.RegularSolution, EoS.Core", false, none⟩ e hgp hrec]

end HeFESTo
